import Mathlib

/-!
Verification of the memento-mcp knowledge-graph memory store.

This file embeds, in Lean 4, the core data model and operations of the
memento-mcp repository (KnowledgeGraphManager, QueryPreprocessor,
AzureEmbeddingService / OllamaEmbeddingService post-processing, and
EmbeddingServiceFactory provider selection), and proves or refutes the
specification claims about them.

Conventions of the embedding:
* JavaScript arrays become `List`; JS `Set` insertion becomes `setDedup`.
* JS numbers used for thresholds and scores become `ℚ`; embedding vector
  components, whose claims concern L2 normalization (division by a square
  root), become `ℝ`.
* `async` methods that can throw become functions into `Except String _`.
* Calls into external collaborators (the Neo4j storage provider, the vector
  store, the HTTP embedding APIs) are modelled by explicit outcome values
  passed in as arguments, so that the control flow of the method under
  verification (in particular its `try`/`catch` structure) is embedded
  faithfully while the collaborators stay opaque.
-/

namespace MementoMCP

/-- Deduplication with JS `Set` semantics: `Array.from(new Set(l))` keeps the
first occurrence of each element and preserves insertion order. -/
def setDedup {α : Type} [DecidableEq α] (l : List α) : List α :=
  l.foldl (fun acc a => if a ∈ acc then acc else acc ++ [a]) []

/-- EntityEmbedding (src/types/entity-embedding.ts): vector with model
metadata, as stored on an entity. -/
structure EntityEmbedding where
  vector : List ℚ
  model : String
  lastUpdated : ℕ
  deriving Repr, DecidableEq

/-- Entity (KnowledgeGraphManager.ts): a named node with a type, an ordered
list of free-text observations and an optional embedding. -/
structure Entity where
  name : String
  entityType : String
  observations : List String
  embedding : Option EntityEmbedding := none
  deriving Repr, DecidableEq

/-- Relation (src/types/relation.ts): a directed typed edge keyed by the
`(from, to, relationType)` triple, with optional strength and confidence.
`from` is a Lean keyword, hence the field name `fromName` (`toName` matches). -/
structure Relation where
  fromName : String
  toName : String
  relationType : String
  strength : Option ℚ := none
  confidence : Option ℚ := none
  deriving Repr, DecidableEq

/-- KnowledgeGraph (KnowledgeGraphManager.ts): the transient query-result
shape holding entities and relations. -/
structure KnowledgeGraph where
  entities : List Entity
  relations : List Relation
  deriving Repr, DecidableEq

/-- One iteration of the `for (const entity of entities)` loop in
`KnowledgeGraphManager.createEntities` (file-based path).  The state is the
pair `(entitiesArray, newEntities)`.  The JS code keeps a `Map` from name to
entity whose entry for a name is always the last element of `entitiesArray`
with that name (last write wins on initialization and every later update
keeps the invariant), so `entitiesMap.has`/`get` are embedded as
`getLast?` of a name filter.  On a hit the merged entity (observations
unioned through a JS `Set`) replaces every array element with that name; on
a miss the entity is appended to both the array and `newEntities`. -/
def createEntitiesStep (st : List Entity × List Entity) (e : Entity) :
    List Entity × List Entity :=
  match (st.1.filter (fun x => x.name == e.name)).getLast? with
  | some existing =>
      let merged : Entity :=
        { existing with observations := setDedup (existing.observations ++ e.observations) }
      (st.1.map (fun x => if x.name == e.name then merged else x), st.2)
  | none => (st.1 ++ [e], st.2 ++ [e])

/-- KnowledgeGraphManager.createEntities in file-based mode
(`!this.storageProvider`): the shared merge loop runs and `saveGraph`
persists the merged `entitiesArray`; the `createdEntities` return value is
`newEntities` (so `[]` for an empty input and for merge-only calls).  The
full method, covering the storage-provider mode as well, is
`createEntitiesM` below, whose `none` case is exactly this function. -/
def createEntities (g : KnowledgeGraph) (entities : List Entity) :
    KnowledgeGraph × List Entity :=
  if entities.isEmpty then (g, [])
  else
    let st := entities.foldl createEntitiesStep (g.entities, [])
    ({ g with entities := st.1 }, st.2)

/-- KnowledgeGraphManager.createEntities, full method.  `storageProvider` is
`none` in the deprecated file-based mode and `some providerCreate` in the
storage-provider mode, where `providerCreate` is the provider's own
`createEntities` acting on its stored graph (an opaque collaborator outside
src).  Both modes run the shared merge loop and both return `[]` early when
`newEntities` is empty; but `saveGraph(graph)` is guarded by
`!this.storageProvider`, so in provider mode the merged `entitiesArray` is
dropped and the provider is called — only when some input entity is
genuinely new — with `newEntities` alone: merged observations of existing
entities are never handed to any persistence call.  The vector-store
additions and embedding-job scheduling that follow touch neither the stored
graph nor the returned `createdEntities`. -/
def createEntitiesM
    (storageProvider : Option (KnowledgeGraph → List Entity → KnowledgeGraph × List Entity))
    (g : KnowledgeGraph) (entities : List Entity) : KnowledgeGraph × List Entity :=
  if entities.isEmpty then (g, [])
  else
    let st := entities.foldl createEntitiesStep (g.entities, [])
    match storageProvider with
    | none => ({ g with entities := st.1 }, st.2)
    | some providerCreate =>
        if st.2.isEmpty then (g, [])
        else providerCreate g st.2

/-- A minimal concrete storage-provider collaborator used by the C1
counterexample and witness: append the entities it is given to its stored
graph and return them. -/
def appendProviderCreate (pg : KnowledgeGraph) (es : List Entity) :
    KnowledgeGraph × List Entity :=
  ({ pg with entities := pg.entities ++ es }, es)

/-- JS `Array.prototype.findIndex` (first index whose predicate holds),
with `-1` embedded as `none`. -/
def findIndex (p : Relation → Bool) : List Relation → Option ℕ
  | [] => none
  | r :: rs => if p r then some 0 else (findIndex p rs).map (· + 1)

/-- KnowledgeGraphManager.updateRelation (fallback path): looks the relation
up by its `(from, to, relationType)` triple with `findIndex`; a miss throws
before `saveGraph` is reached, a hit overwrites the stored relation in place
and saves. -/
def updateRelation (g : KnowledgeGraph) (relation : Relation) :
    Except String (KnowledgeGraph × Relation) :=
  match findIndex (fun r => r.fromName == relation.fromName && r.toName == relation.toName
      && r.relationType == relation.relationType) g.relations with
  | none => Except.error ("Relation from " ++ relation.fromName ++ " to " ++ relation.toName
      ++ " of type " ++ relation.relationType ++ " not found")
  | some i => Except.ok ({ g with relations := g.relations.set i relation }, relation)

/-- The persisted graph across an `updateRelation` call: the fallback loads
the graph, and `saveGraph` runs only on the success path, so a thrown
not-found error leaves the stored graph exactly as loaded. -/
def updateRelationStore (g : KnowledgeGraph) (relation : Relation) : KnowledgeGraph :=
  match updateRelation g relation with
  | Except.ok (g2, _) => g2
  | Except.error _ => g

/-- KnowledgeGraphManager.deleteEntities, primary deletion (file-based path):
drops the named entities and every relation whose endpoint is one of them,
then saves. -/
def deleteEntitiesGraph (g : KnowledgeGraph) (entityNames : List String) : KnowledgeGraph :=
  { g with
    entities := g.entities.filter (fun e => !(entityNames.contains e.name)),
    relations := g.relations.filter (fun r =>
      !(entityNames.contains r.fromName) && !(entityNames.contains r.toName)) }

/-- One iteration of the vector-store removal loop in `deleteEntities`: the
per-entity `try`/`catch` swallows a `removeVector` failure (modelled by the
`removeVectorFails` oracle) and continues with the next entity, so a failing
name leaves the vector store untouched. -/
def removeVectorAttempt (removeVectorFails : String → Bool)
    (vs : List String) (n : String) : List String :=
  if removeVectorFails n then vs else vs.filter (fun v => !(v == n))

/-- KnowledgeGraphManager.deleteEntities: an empty name list returns
immediately; otherwise the primary deletion runs first, and only then the
best-effort vector-store removals (skipped entirely when `ensureVectorStore`
fails, modelled by `vectorStoreAvailable`).  Every vector-store failure is
caught, so the surrounding `async` method can only resolve, never reject —
hence the result is structurally `Except.ok`. -/
def deleteEntities (removeVectorFails : String → Bool) (vectorStoreAvailable : Bool)
    (g : KnowledgeGraph) (vs : List String) (entityNames : List String) :
    Except String (KnowledgeGraph × List String) :=
  if entityNames.isEmpty then Except.ok (g, vs)
  else
    let g2 := deleteEntitiesGraph g entityNames
    let vs2 := if vectorStoreAvailable then
        entityNames.foldl (removeVectorAttempt removeVectorFails) vs
      else vs
    Except.ok (g2, vs2)

/-- Which optional collaborators a `KnowledgeGraphManager` instance holds
(constructor options in KnowledgeGraphManager.ts), plus whether a present
storage provider implements the optional `semanticSearch` method and whether
a present embedding job manager exposes an `embeddingService`. -/
structure ManagerConfig where
  hasStorageProvider : Bool
  providerHasSemanticSearch : Bool
  hasEmbeddingJobManager : Bool
  hasEmbeddingService : Bool

/-- Outcomes of the awaited collaborator calls reachable from
`KnowledgeGraphManager.search`.  Each field is the (fixed) result the
corresponding async call would settle with; an `Except.error` is a promise
rejection. -/
structure SearchCollaborators where
  genEmbedding : Except String (List ℚ)
  providerSemanticSearch : Except String KnowledgeGraph
  providerSearchNodes : Except String KnowledgeGraph
  internalSemanticRest : Except String KnowledgeGraph
  fileSearchNodes : Except String KnowledgeGraph

/-- The two flags of `search`'s options object that steer its control flow. -/
structure SearchOptions where
  semanticSearch : Bool := false
  hybridSearch : Bool := false

/-- KnowledgeGraphManager.searchNodes: delegates to the storage provider when
present, else the file-based keyword fallback. -/
def searchNodes (cfg : ManagerConfig) (env : SearchCollaborators) :
    Except String KnowledgeGraph :=
  if cfg.hasStorageProvider then env.providerSearchNodes else env.fileSearchNodes

/-- KnowledgeGraphManager.semanticSearch (private): `findSimilarEntities`
awaits `embeddingService.generateEmbedding(query)` first, so an embedding
failure rejects the whole internal semantic search; the rest of the pipeline
(vector-store lookup, `openNodes`, scoring) is opaque here. -/
def internalSemanticSearch (env : SearchCollaborators) : Except String KnowledgeGraph :=
  match env.genEmbedding with
  | Except.error e => Except.error e
  | Except.ok _ => env.internalSemanticRest

/-- KnowledgeGraphManager.search.  The embedding preserves the `await`
structure of the source: inside the provider branch's `try`,
`generateEmbedding` is awaited — its rejection is caught and degraded to
`storageProvider.searchNodes` — but `semanticSearch(...)` (and the
no-embedding-service `searchNodes(...)`) are returned **without** `await`,
so their rejections bypass the `catch` and settle the caller's promise
directly.  The internal branch awaits `this.semanticSearch(...)`, so there
the catch does run and falls through to the bottom `this.searchNodes`. -/

def search (cfg : ManagerConfig) (env : SearchCollaborators) (options0 : SearchOptions) :
    Except String KnowledgeGraph :=
  let options := if options0.hybridSearch then
      { options0 with semanticSearch := true } else options0
  if options.semanticSearch || options.hybridSearch then
    if cfg.hasStorageProvider && cfg.providerHasSemanticSearch then
      if cfg.hasEmbeddingJobManager && cfg.hasEmbeddingService then
        match env.genEmbedding with
        | Except.error _ => env.providerSearchNodes
        | Except.ok _ => env.providerSemanticSearch
      else env.providerSearchNodes
    else if cfg.hasStorageProvider then
      env.providerSearchNodes
    else if cfg.hasEmbeddingJobManager then
      match internalSemanticSearch env with
      | Except.ok results => Except.ok results
      | Except.error _ =>
          if cfg.hasStorageProvider then env.providerSearchNodes else searchNodes cfg env
    else searchNodes cfg env
  else searchNodes cfg env

/-- The character class of the JS regex `\s` (and of `String.prototype.trim`):
ASCII whitespace, NBSP, BOM, the Unicode `Zs` spaces and the line/paragraph
separators. -/
def isJsWhitespace (c : Char) : Bool :=
  c.toNat = 9 || c.toNat = 10 || c.toNat = 11 || c.toNat = 12 || c.toNat = 13 ||
  c.toNat = 32 || c.toNat = 160 || c.toNat = 0x1680 ||
  (0x2000 ≤ c.toNat && c.toNat ≤ 0x200A) || c.toNat = 0x2028 || c.toNat = 0x2029 ||
  c.toNat = 0x202F || c.toNat = 0x205F || c.toNat = 0x3000 || c.toNat = 0xFEFF

/-- JS `String.prototype.trim`: strip leading and trailing whitespace. -/
def trimChars (l : List Char) : List Char :=
  ((l.dropWhile isJsWhitespace).reverse.dropWhile isJsWhitespace).reverse

/-- JS `replace(/\s+/g, ' ')`: every maximal whitespace run becomes a single
space.  Mapping each whitespace character to a space and then dropping a
space whose right neighbour is also a space realises exactly that (non-space
characters are never whitespace). -/
def collapseWs (l : List Char) : List Char :=
  (l.map (fun c => if isJsWhitespace c then ' ' else c)).foldr
    (fun c acc => if c = ' ' && acc.headD 'x' = ' ' then acc else c :: acc) []

/-- JS `String.prototype.toLowerCase`, character-wise (`Char.toLower` covers
the ASCII range the queries in this code base use). -/
def strToLower (s : String) : String :=
  String.mk (s.toList.map Char.toLower)

/-- QueryPreprocessor.normalizeQuery: `query.trim().replace(/\s+/g, ' ')
.toLowerCase()`. -/
def normalizeQuery (query : String) : String :=
  String.mk ((collapseWs (trimChars query.toList)).map Char.toLower)

/-- Splitting on whitespace: each whitespace character opens a new (possibly
empty) piece, mirroring `split(/\s+/)` up to the empty pieces that the
source filters away right afterwards. -/
def splitOnWs (l : List Char) : List (List Char) :=
  l.foldr (fun c acc =>
    if isJsWhitespace c then [] :: acc
    else match acc with
      | [] => [[c]]
      | t :: ts => (c :: t) :: ts) []

/-- QueryPreprocessor.extractTerms: split on whitespace and keep the
non-empty terms. -/
def extractTerms (query : String) : List String :=
  ((splitOnWs query.toList).map (fun t => String.mk t)).filter (fun t => 0 < t.length)

/-- QueryPreprocessorOptions with the `??` defaults of the constructor. -/
structure QueryPreprocessorOptions where
  enableDecomposition : Bool := true
  complexityThreshold : ℚ := 3
  adaptiveThresholds : Bool := true
  minThresholdMultiTerm : ℚ := 2/5
  maxThresholdSingleTerm : ℚ := 3/5

/-- QueryPreprocessor.analyzeComplexity: 0 for at most one term, 1 once the
term count reaches `complexityThreshold`, else linear interpolation. -/
def analyzeComplexity (opts : QueryPreprocessorOptions) (terms : List String) : ℚ :=
  let termCount := terms.length
  if termCount ≤ 1 then 0
  else if opts.complexityThreshold ≤ (termCount : ℚ) then 1
  else ((termCount : ℚ) - 1) / (opts.complexityThreshold - 1)

/-- The adjacent-bigram loop of QueryPreprocessor.decomposeQuery. -/
def bigrams : List String → List String
  | a :: b :: rest => (a ++ " " ++ b) :: bigrams (b :: rest)
  | _ => []

/-- QueryPreprocessor.decomposeQuery: start from the full query; with three
or more terms append all adjacent bigrams and every term of length at least
5; deduplicate via a JS `Set` at the end. -/
def decomposeQuery (query : String) (terms : List String) : List String :=
  let subQueries := [query]
  let subQueries := if 3 ≤ terms.length then
      subQueries ++ bigrams terms ++ terms.filter (fun t => 5 ≤ t.length)
    else subQueries
  setDedup subQueries

/-- QueryPreprocessor.calculateAdaptiveThreshold. -/
def calculateAdaptiveThreshold (opts : QueryPreprocessorOptions) (complexity : ℚ) : ℚ :=
  if !opts.adaptiveThresholds then opts.maxThresholdSingleTerm
  else
    let range := opts.maxThresholdSingleTerm - opts.minThresholdMultiTerm
    opts.maxThresholdSingleTerm - complexity * range

/-- QueryPreprocessor.shouldUseMultiVector. -/
def shouldUseMultiVector (terms : List String) : Bool :=
  3 ≤ terms.length

/-- The stop-word set of QueryPreprocessor.extractKeyTerms. -/
def stopWords : List String :=
  ["the", "a", "an", "and", "or", "but", "in", "on", "at", "to", "for"]

/-- Stable insertion used to embed the JS stable sort by descending length. -/
def insertByLengthDesc (x : String) : List String → List String
  | [] => [x]
  | y :: ys => if x.length ≤ y.length then y :: insertByLengthDesc x ys else x :: y :: ys

/-- JS `sort((a, b) => b.length - a.length)`: stable descending sort by
length (any stable sort over this comparator yields the same list). -/
def sortByLengthDesc (l : List String) : List String :=
  l.foldl (fun acc x => insertByLengthDesc x acc) []

/-- QueryPreprocessor.extractKeyTerms. -/
def extractKeyTerms (terms : List String) : List String :=
  sortByLengthDesc (terms.filter
    (fun t => !(stopWords.contains (strToLower t)) && 2 < t.length))

/-- QueryAnalysis, the result record of QueryPreprocessor.analyze. -/
structure QueryAnalysis where
  originalQuery : String
  normalizedQuery : String
  terms : List String
  subQueries : List String
  complexity : ℚ
  recommendedThreshold : ℚ
  useMultiVector : Bool
  keyTerms : List String
  deriving Repr, DecidableEq

/-- QueryPreprocessor.analyze. -/
def analyze (opts : QueryPreprocessorOptions) (query : String) : QueryAnalysis :=
  let normalizedQuery := normalizeQuery query
  let terms := extractTerms normalizedQuery
  let complexity := analyzeComplexity opts terms
  let subQueries := if opts.enableDecomposition then
      decomposeQuery normalizedQuery terms else [normalizedQuery]
  let recommendedThreshold := calculateAdaptiveThreshold opts complexity
  let useMultiVector := shouldUseMultiVector terms
  let keyTerms := extractKeyTerms terms
  { originalQuery := query, normalizedQuery := normalizedQuery, terms := terms,
    subQueries := subQueries, complexity := complexity,
    recommendedThreshold := recommendedThreshold, useMultiVector := useMultiVector,
    keyTerms := keyTerms }

/-- The magnitude accumulation loop of AzureEmbeddingService._normalizeVector:
sum of squared components. -/
def sumSq (v : List ℝ) : ℝ :=
  (v.map (fun x => x * x)).sum

/-- The magnitude (`Math.sqrt` of the accumulated sum) in
AzureEmbeddingService._normalizeVector.  `Real.sqrt` has no executable code,
so this and `normalizeVector` are noncomputable; the claims about them are
settled by lemmas about `Real.sqrt` rather than by evaluation. -/
noncomputable def magnitude (v : List ℝ) : ℝ :=
  Real.sqrt (sumSq v)

/-- AzureEmbeddingService._normalizeVector: divide every component by the
magnitude when it is positive; otherwise set the first element to 1 (on an
empty JS array, `vector[0] = 1` produces the one-element array `[1]`). -/
noncomputable def normalizeVector (v : List ℝ) : List ℝ :=
  if 0 < magnitude v then v.map (fun x => x / magnitude v)
  else
    match v with
    | [] => [1]
    | _ :: rest => 1 :: rest

/-- The response post-processing of AzureEmbeddingService.generateEmbedding:
given the `data` array of the API response, a missing first element or an
empty embedding is rejected, otherwise the embedding is normalized in place
and returned. -/
noncomputable def azureProcessResponse (data : List (List ℝ)) : Except String (List ℝ) :=
  match data.head? with
  | none => Except.error "Invalid response from Azure OpenAI API - missing embedding data"
  | some embedding =>
      if embedding.isEmpty then
        Except.error "Invalid embedding returned from Azure OpenAI API"
      else Except.ok (normalizeVector embedding)

/-- The response post-processing of OllamaEmbeddingService.generateEmbedding:
a non-array response (`none`) is rejected; an array is returned unchanged —
a dimension mismatch only logs a warning and no normalization happens. -/
def ollamaProcessResponse (embedding : Option (List ℝ)) : Except String (List ℝ) :=
  match embedding with
  | none => Except.error "Invalid response from Ollama API: embedding is not an array"
  | some v => Except.ok v

/-- Which embedding service `EmbeddingServiceFactory.createFromEnvironment`
constructs. -/
inductive ProviderSelection where
  | defaultService
  | openai
  | azure
  | ollama
  deriving DecidableEq, Repr

/-- The environment variables read by
`EmbeddingServiceFactory.createFromEnvironment` (`none` = unset). -/
structure FactoryEnv where
  MOCK_EMBEDDINGS : Option String := none
  EMBEDDING_PROVIDER : Option String := none
  AZURE_OPENAI_API_KEY : Option String := none
  AZURE_OPENAI_ENDPOINT : Option String := none
  AZURE_OPENAI_MODEL : Option String := none
  AZURE_OPENAI_API_VERSION : Option String := none
  OPENAI_API_KEY : Option String := none
  OPENAI_EMBEDDING_MODEL : Option String := none

/-- JS truthiness of an environment variable: unset and the empty string are
falsy. -/
def truthy : Option String → Bool
  | none => false
  | some s => !(s == "")

/-- EmbeddingServiceFactory.createFromEnvironment.  Mock short-circuits;
an explicit `ollama` provider is constructed directly; explicit `openai` and
`azure` only *validate* their credentials (falling back to the default
service when incomplete) and otherwise fall through to auto-detection, which
checks Azure first, then OpenAI, then the default service.  The
service-constructor `try`/`catch` fallbacks are unreachable here: the
constructors throw only on missing fields, which the guards rule out. -/
def createFromEnvironment (env : FactoryEnv) : ProviderSelection :=
  let useMockEmbeddings := env.MOCK_EMBEDDINGS == some "true"
  let embeddingProvider := env.EMBEDDING_PROVIDER.map strToLower
  if useMockEmbeddings then ProviderSelection.defaultService
  else if embeddingProvider == some "ollama" then ProviderSelection.ollama
  else if embeddingProvider == some "openai" && !(truthy env.OPENAI_API_KEY) then
    ProviderSelection.defaultService
  else if embeddingProvider == some "azure" && !(truthy env.AZURE_OPENAI_API_KEY &&
      truthy env.AZURE_OPENAI_ENDPOINT && truthy env.AZURE_OPENAI_MODEL) then
    ProviderSelection.defaultService
  else if truthy env.AZURE_OPENAI_API_KEY && truthy env.AZURE_OPENAI_ENDPOINT &&
      truthy env.AZURE_OPENAI_MODEL then
    ProviderSelection.azure
  else if truthy env.OPENAI_API_KEY then ProviderSelection.openai
  else ProviderSelection.defaultService

/-- Concrete entities and graphs used by the closed witness theorems. -/
def fluffyV1 : Entity :=
  { name := "Fluffy", entityType := "pet", observations := ["loves JavaScript", "is a rabbit"] }

def fluffyV2 : Entity :=
  { name := "Fluffy", entityType := "pet", observations := ["is a rabbit", "hops"] }

def fluffyGraph : KnowledgeGraph := { entities := [fluffyV1], relations := [] }

def emptyGraph : KnowledgeGraph := { entities := [], relations := [] }

def fluffyObs1 : Entity :=
  { name := "Fluffy", entityType := "pet", observations := ["loves JavaScript"] }

def fluffyObs2 : Entity :=
  { name := "Fluffy", entityType := "pet", observations := ["hops"] }

def fluffyObsGraph : KnowledgeGraph := { entities := [fluffyObs1], relations := [] }

def relKnows : Relation := { fromName := "a", toName := "b", relationType := "knows" }

def relLikes : Relation := { fromName := "a", toName := "b", relationType := "likes" }

def relGraph : KnowledgeGraph := { entities := [], relations := [relKnows] }

def abGraph : KnowledgeGraph :=
  { entities := [{ name := "A", entityType := "t", observations := [] },
      { name := "B", entityType := "t", observations := [] }],
    relations := [{ fromName := "A", toName := "B", relationType := "knows" }] }

def searchBugConfig : ManagerConfig :=
  { hasStorageProvider := true, providerHasSemanticSearch := true,
    hasEmbeddingJobManager := true, hasEmbeddingService := true }

def searchBugEnv : SearchCollaborators :=
  { genEmbedding := Except.ok [1],
    providerSemanticSearch := Except.error "ProviderError: semantic search failed",
    providerSearchNodes := Except.ok emptyGraph,
    internalSemanticRest := Except.ok emptyGraph,
    fileSearchNodes := Except.ok emptyGraph }

def dualCredentialEnv : FactoryEnv :=
  { EMBEDDING_PROVIDER := some "openai", OPENAI_API_KEY := some "sk-test",
    AZURE_OPENAI_API_KEY := some "azure-key",
    AZURE_OPENAI_ENDPOINT := some "https://r.openai.azure.com",
    AZURE_OPENAI_MODEL := some "text-embedding-ada-002" }

theorem foldl_setDedup_mem {α : Type} [DecidableEq α] (l : List α) (acc : List α) (x : α) :
    x ∈ l.foldl (fun acc a => if a ∈ acc then acc else acc ++ [a]) acc ↔ x ∈ acc ∨ x ∈ l := by
  induction l generalizing acc with
  | nil => simp
  | cons a l ih =>
    simp only [List.foldl_cons]
    by_cases h : a ∈ acc
    · rw [if_pos h, ih]
      constructor
      · rintro (hx | hx)
        · exact Or.inl hx
        · exact Or.inr (List.mem_cons_of_mem a hx)
      · rintro (hx | hx)
        · exact Or.inl hx
        · rcases List.mem_cons.mp hx with rfl | hx
          · exact Or.inl h
          · exact Or.inr hx
    · rw [if_neg h, ih]
      simp only [List.mem_append, List.mem_singleton, List.mem_cons]
      tauto

theorem mem_setDedup {α : Type} [DecidableEq α] (l : List α) (x : α) :
    x ∈ setDedup l ↔ x ∈ l := by
  unfold setDedup
  rw [foldl_setDedup_mem]
  simp

theorem foldl_setDedup_nodup {α : Type} [DecidableEq α] (l : List α) (acc : List α)
    (h : acc.Nodup) :
    (l.foldl (fun acc a => if a ∈ acc then acc else acc ++ [a]) acc).Nodup := by
  induction l generalizing acc with
  | nil => simpa using h
  | cons a l ih =>
    simp only [List.foldl_cons]
    by_cases ha : a ∈ acc
    · rw [if_pos ha]; exact ih acc h
    · rw [if_neg ha]
      exact ih (acc ++ [a]) (by simp [List.nodup_append, h, ha])

theorem nodup_setDedup {α : Type} [DecidableEq α] (l : List α) : (setDedup l).Nodup :=
  foldl_setDedup_nodup l [] List.nodup_nil

theorem foldl_setDedup_sublist {α : Type} [DecidableEq α] (l : List α) (acc : List α) :
    (l.foldl (fun acc a => if a ∈ acc then acc else acc ++ [a]) acc).Sublist (acc ++ l) := by
  induction l generalizing acc with
  | nil => simp
  | cons a l ih =>
    simp only [List.foldl_cons]
    by_cases ha : a ∈ acc
    · rw [if_pos ha]
      exact (ih acc).trans (List.Sublist.append_left (List.sublist_cons_self a l) acc)
    · rw [if_neg ha]
      have := ih (acc ++ [a])
      simpa using this

theorem setDedup_sublist {α : Type} [DecidableEq α] (l : List α) : (setDedup l).Sublist l := by
  simpa using foldl_setDedup_sublist l []

theorem foldl_setDedup_of_subset {α : Type} [DecidableEq α] (l : List α) (acc : List α)
    (h : ∀ x ∈ l, x ∈ acc) :
    l.foldl (fun acc a => if a ∈ acc then acc else acc ++ [a]) acc = acc := by
  induction l with
  | nil => rfl
  | cons a l ih =>
    simp only [List.foldl_cons]
    rw [if_pos (h a (List.mem_cons_self a l))]
    exact ih fun x hx => h x (List.mem_cons_of_mem a hx)

/-- Deduplicating a doubled list gives the same result as deduplicating the
list itself: merging an entity into itself does not double its observations. -/
theorem setDedup_append_self {α : Type} [DecidableEq α] (l : List α) :
    setDedup (l ++ l) = setDedup l := by
  unfold setDedup
  rw [List.foldl_append]
  exact foldl_setDedup_of_subset l _ fun x hx =>
    (foldl_setDedup_mem l [] x).mpr (Or.inr hx)

theorem filter_name_eq_single {l : List Entity} {old : Entity} {n : String}
    (hnodup : (l.map Entity.name).Nodup) (hmem : old ∈ l) (hname : old.name = n) :
    l.filter (fun x => x.name == n) = [old] := by
  induction l with
  | nil => cases hmem
  | cons a l ih =>
    simp only [List.map_cons, List.nodup_cons] at hnodup
    rcases List.mem_cons.mp hmem with rfl | hmem
    · have : l.filter (fun x => x.name == n) = [] := by
        rw [List.filter_eq_nil_iff]
        intro x hx
        simp only [beq_iff_eq]
        intro hxe
        apply hnodup.1
        rw [hname, ← hxe]
        exact List.mem_map_of_mem Entity.name hx
      rw [List.filter_cons, if_pos (by simp [hname]), this]
    · have hne : a.name ≠ n := by
        intro h
        apply hnodup.1
        rw [h, ← hname]
        exact List.mem_map_of_mem Entity.name hmem
      rw [List.filter_cons, if_neg (by simp [hne])]
      exact ih hnodup.2 hmem

theorem filter_map_replace {l : List Entity} {old m : Entity} {n : String}
    (hm : m.name = n)
    (hfilter : l.filter (fun x => x.name == n) = [old]) :
    (l.map (fun x => if x.name == n then m else x)).filter (fun x => x.name == n) = [m] := by
  induction l with
  | nil => simp at hfilter
  | cons a l ih =>
    by_cases ha : a.name = n
    · rw [List.filter_cons, if_pos (by simp [ha])] at hfilter
      have hpair : a = old ∧ l.filter (fun x => x.name == n) = [] := by
        simpa using hfilter
      have htl := hpair.2
      simp only [List.map_cons]
      rw [if_pos (by simp [ha])]
      rw [List.filter_cons, if_pos (by simp [hm])]
      congr 1
      rw [List.filter_eq_nil_iff]
      intro x hx
      rcases List.mem_map.mp hx with ⟨y, hy, rfl⟩
      have hyn : y.name ≠ n := by
        have := (List.filter_eq_nil_iff.mp htl) y hy
        simpa using this
      rw [if_neg (by simp [hyn])]
      simp [hyn]
    · rw [List.filter_cons, if_neg (by simp [ha])] at hfilter
      simp only [List.map_cons]
      rw [if_neg (by simp [ha])]
      rw [List.filter_cons, if_neg (by simp [ha])]
      exact ih hfilter

theorem createEntities_single (g : KnowledgeGraph) (e : Entity) :
    createEntities g [e] =
      match (g.entities.filter (fun x => x.name == e.name)).getLast? with
      | some existing =>
          ({ g with entities := g.entities.map (fun x => if x.name == e.name then
              { existing with
                observations := setDedup (existing.observations ++ e.observations) }
            else x) }, [])
      | none => ({ g with entities := g.entities ++ [e] }, [e]) := by
  cases h : (g.entities.filter (fun x => x.name == e.name)).getLast? <;>
    simp [createEntities, createEntitiesStep, h]

theorem getLast?_of_ne_nil {α : Type} {l : List α} (h : l ≠ []) :
    ∃ a, l.getLast? = some a ∧ a ∈ l := by
  induction l with
  | nil => cases h rfl
  | cons a l ih =>
    cases l with
    | nil => exact ⟨a, rfl, List.mem_singleton_self a⟩
    | cons b t =>
      obtain ⟨c, hc, hmem⟩ := ih (by simp)
      exact ⟨c, by rw [List.getLast?_cons_cons]; exact hc, List.mem_cons_of_mem a hmem⟩

theorem createEntitiesStep_existing {arr ne : List Entity} {e : Entity}
    (h : e.name ∈ arr.map Entity.name) :
    ∃ arr2, createEntitiesStep (arr, ne) e = (arr2, ne) ∧
      arr2.map Entity.name = arr.map Entity.name := by
  have hne : arr.filter (fun x => x.name == e.name) ≠ [] := by
    rcases List.mem_map.mp h with ⟨x, hx, hxe⟩
    intro hnil
    have := List.filter_eq_nil_iff.mp hnil x hx
    simp [hxe] at this
  obtain ⟨ex, hlast, hmem⟩ := getLast?_of_ne_nil hne
  have hexname : ex.name = e.name := by
    have := List.of_mem_filter hmem
    simpa using this
  refine ⟨arr.map (fun x => if x.name == e.name then
      { ex with observations := setDedup (ex.observations ++ e.observations) } else x),
    ?_, ?_⟩
  · unfold createEntitiesStep
    rw [hlast]
  · rw [List.map_map]
    apply List.map_congr_left
    intro x hx
    by_cases hxn : x.name = e.name
    · simp [Function.comp, hxn, hexname]
    · simp [Function.comp, hxn]

theorem createEntities_foldl_existing (es : List Entity) :
    ∀ (arr ne : List Entity), (∀ x ∈ es, x.name ∈ arr.map Entity.name) →
      (es.foldl createEntitiesStep (arr, ne)).2 = ne ∧
        (es.foldl createEntitiesStep (arr, ne)).1.map Entity.name = arr.map Entity.name := by
  induction es with
  | nil => intro arr ne _; exact ⟨rfl, rfl⟩
  | cons e es ih =>
    intro arr ne h
    obtain ⟨arr2, hstep, hnames⟩ :=
      @createEntitiesStep_existing arr ne e (h e (List.mem_cons_self e es))
    simp only [List.foldl_cons, hstep]
    have h2 : ∀ x ∈ es, x.name ∈ arr2.map Entity.name := by
      intro x hx
      rw [hnames]
      exact h x (List.mem_cons_of_mem e hx)
    obtain ⟨hres2, hresnames⟩ := ih arr2 ne h2
    exact ⟨hres2, by rw [hresnames, hnames]⟩

/-- C1 amended: in file-based mode (`storageProvider` absent) `createEntities`
with an already-present name merges instead of replacing — the stored
entity's observation list becomes the existing observations followed by the
new ones, deduplicated with first occurrences kept (a JS `Set` union), so
the original order is preserved and genuinely new items are appended, and
creating the same entity twice leaves exactly one stored entity with
deduplicated, not doubled, observations.  In storage-provider mode the
merged observations are computed but never persisted: a call whose entity
names all already exist returns `[]` with the provider's stored graph
untouched, for every provider. -/
theorem createEntities_merge_idempotent
    (g : KnowledgeGraph) (e old : Entity)
    (hnodup : (g.entities.map Entity.name).Nodup) :
    (old ∈ g.entities → old.name = e.name →
      ((createEntities g [e]).1.entities.filter (fun x => x.name == e.name) =
          [{ old with observations := setDedup (old.observations ++ e.observations) }] ∧
        (setDedup (old.observations ++ e.observations)).Nodup ∧
        (setDedup (old.observations ++ e.observations)).Sublist
          (old.observations ++ e.observations) ∧
        ∀ s, s ∈ setDedup (old.observations ++ e.observations) ↔
          s ∈ old.observations ∨ s ∈ e.observations))
    ∧
    (e.name ∉ g.entities.map Entity.name →
      (createEntities (createEntities g [e]).1 [e]).1.entities.filter
          (fun x => x.name == e.name) =
        [{ e with observations := setDedup e.observations }])
    ∧
    (∀ providerCreate, e.name ∈ g.entities.map Entity.name →
      createEntitiesM (some providerCreate) g [e] = (g, [])) := by
  refine ⟨?_, ?_, ?_⟩
  · intro hmem hname
    have hfilter : g.entities.filter (fun x => x.name == e.name) = [old] :=
      filter_name_eq_single hnodup hmem hname
    have hsingle := createEntities_single g e
    rw [hfilter] at hsingle
    simp only [List.getLast?_singleton] at hsingle
    rw [hsingle]
    refine ⟨?_, nodup_setDedup _, setDedup_sublist _, fun s => by
      rw [mem_setDedup]; exact List.mem_append⟩
    exact filter_map_replace hname hfilter
  · intro hnotmem
    have hfilter : g.entities.filter (fun x => x.name == e.name) = [] := by
      rw [List.filter_eq_nil_iff]
      intro x hx
      simp only [beq_iff_eq]
      intro hxe
      exact hnotmem (hxe ▸ List.mem_map_of_mem Entity.name hx)
    have hsingle := createEntities_single g e
    rw [hfilter] at hsingle
    simp only [List.getLast?_nil] at hsingle
    rw [hsingle]
    have hfilter2 : ((g.entities ++ [e]).filter (fun x => x.name == e.name)) = [e] := by
      rw [List.filter_append, hfilter]
      simp
    have hsingle2 := createEntities_single { g with entities := g.entities ++ [e] } e
    rw [hfilter2] at hsingle2
    simp only [List.getLast?_singleton] at hsingle2
    rw [hsingle2]
    rw [setDedup_append_self]
    exact filter_map_replace rfl hfilter2
  · intro providerCreate hmem2
    obtain ⟨arr2, hstep, hnames⟩ := @createEntitiesStep_existing g.entities [] e hmem2
    simp [createEntitiesM, hstep]

/-- Closed witness for the hypotheses of `createEntities_merge_idempotent`:
the merge branch, the create-then-recreate branch and the provider-mode
branch evaluated on concrete entities. -/
theorem createEntities_merge_idempotent_witness :
    (createEntities fluffyGraph [fluffyV2]).1.entities.filter
        (fun x => x.name == fluffyV2.name) =
      [{ fluffyV1 with observations := ["loves JavaScript", "is a rabbit", "hops"] }] ∧
    (createEntities (createEntities emptyGraph [fluffyV2]).1 [fluffyV2]).1.entities.filter
        (fun x => x.name == fluffyV2.name) =
      [{ fluffyV2 with observations := ["is a rabbit", "hops"] }] ∧
    createEntitiesM (some appendProviderCreate) fluffyGraph [fluffyV2] =
      (fluffyGraph, []) := by
  have h := createEntities_merge_idempotent fluffyGraph fluffyV2 fluffyV1 (by decide)
  have h0 := createEntities_merge_idempotent emptyGraph fluffyV2 fluffyV1 (by decide)
  refine ⟨?_, ?_, ?_⟩
  · have hm := (h.1 (by decide) (by decide)).1
    rw [hm]
    decide
  · have hi := h0.2.1 (by decide)
    rw [hi]
    decide
  · exact h.2.2 appendProviderCreate (by decide)

/-- C1 counterexample: the claimed merge-on-duplicate-create is not persisted
in storage-provider mode.  Over a provider-backed manager whose stored graph
already holds "Fluffy", calling `createEntities` with a same-name entity
carrying new observations returns with the provider's stored graph
unchanged — the stored entity keeps its old observation list, which differs
from the claimed deduplicated union. -/
theorem createEntities_provider_merge_not_persisted :
    (createEntitiesM (some appendProviderCreate) fluffyGraph [fluffyV2]).1 = fluffyGraph ∧
      fluffyGraph.entities.filter (fun x => x.name == fluffyV2.name) = [fluffyV1] ∧
      fluffyV1.observations ≠ setDedup (fluffyV1.observations ++ fluffyV2.observations) := by
  exact ⟨by decide, by decide, by decide⟩

/-- C10: `createEntities` returns an empty `createdEntities` array whenever
every input entity's name already exists in the graph (observations may still
have been merged), and likewise for an empty input list. -/
theorem createEntities_returns_empty_when_all_exist
    (g : KnowledgeGraph) (entities : List Entity)
    (h : ∀ x ∈ entities, x.name ∈ g.entities.map Entity.name) :
    (createEntities g entities).2 = [] := by
  unfold createEntities
  by_cases he : entities.isEmpty
  · rw [if_pos he]
  · rw [if_neg he]
    exact (createEntities_foldl_existing entities g.entities [] h).1

/-- Closed witness for `createEntities_returns_empty_when_all_exist`: a call
whose single input entity (with a new observation) already exists returns
`[]`, and so does a call with an empty input list. -/
theorem createEntities_returns_empty_witness :
    (createEntities fluffyObsGraph [fluffyObs2]).2 = [] ∧
      (createEntities fluffyObsGraph []).2 = [] :=
  ⟨createEntities_returns_empty_when_all_exist fluffyObsGraph [fluffyObs2] (by decide),
    createEntities_returns_empty_when_all_exist fluffyObsGraph [] (by decide)⟩

theorem findIndex_eq_none_of_no_match {p : Relation → Bool} {l : List Relation}
    (h : ∀ r ∈ l, p r = false) : findIndex p l = none := by
  induction l with
  | nil => rfl
  | cons r rs ih =>
    unfold findIndex
    rw [h r (List.mem_cons_self r rs), if_neg (by simp)]
    rw [ih fun x hx => h x (List.mem_cons_of_mem r hx)]
    rfl

/-- C6: `updateRelation` on a `(from, to, relationType)` triple that is not
present in the stored graph fails with a not-found error, and the failed call
leaves the stored graph unchanged. -/
theorem updateRelation_missing_triple_fails
    (g : KnowledgeGraph) (relation : Relation)
    (h : ∀ r ∈ g.relations, ¬(r.fromName = relation.fromName ∧ r.toName = relation.toName ∧
      r.relationType = relation.relationType)) :
    (∃ msg, updateRelation g relation = Except.error msg) ∧
      updateRelationStore g relation = g := by
  have hnone : findIndex (fun r => r.fromName == relation.fromName
      && r.toName == relation.toName && r.relationType == relation.relationType)
      g.relations = none := by
    apply findIndex_eq_none_of_no_match
    intro r hr
    have := h r hr
    by_contra hb
    apply this
    simp only [Bool.not_eq_false, Bool.and_eq_true, beq_iff_eq] at hb
    exact ⟨hb.1.1, hb.1.2, hb.2⟩
  constructor
  · refine ⟨"Relation from " ++ relation.fromName ++ " to " ++ relation.toName
      ++ " of type " ++ relation.relationType ++ " not found", ?_⟩
    unfold updateRelation
    rw [hnone]
  · unfold updateRelationStore updateRelation
    rw [hnone]

/-- Closed witness for `updateRelation_missing_triple_fails`: updating a
relation whose triple is absent from a concrete one-relation graph errors and
leaves the graph as it was. -/
theorem updateRelation_missing_triple_witness :
    (∃ msg, updateRelation relGraph relLikes = Except.error msg) ∧
      updateRelationStore relGraph relLikes = relGraph :=
  updateRelation_missing_triple_fails relGraph relLikes (by decide)

/-- C7: for a non-empty list of names, `deleteEntities` always succeeds no
matter which vector-store removals fail, its resulting primary graph is
exactly the graph with the named entities and their incident relations
removed (so a vector failure never undoes the primary deletion), and that
graph indeed contains no deleted entity and no incident relation. -/
theorem deleteEntities_best_effort (removeVectorFails : String → Bool)
    (vectorStoreAvailable : Bool) (g : KnowledgeGraph) (vs : List String)
    (entityNames : List String) (h : entityNames ≠ []) :
    (∃ vs2, deleteEntities removeVectorFails vectorStoreAvailable g vs entityNames =
        Except.ok (deleteEntitiesGraph g entityNames, vs2)) ∧
      (∀ e ∈ (deleteEntitiesGraph g entityNames).entities, e.name ∉ entityNames) ∧
      (∀ r ∈ (deleteEntitiesGraph g entityNames).relations,
        r.fromName ∉ entityNames ∧ r.toName ∉ entityNames) := by
  refine ⟨⟨if vectorStoreAvailable then
      entityNames.foldl (removeVectorAttempt removeVectorFails) vs else vs, ?_⟩, ?_, ?_⟩
  · unfold deleteEntities
    rw [if_neg (by simpa using h)]
  · intro e he
    have := List.of_mem_filter he
    simpa using this
  · intro r hr
    have := List.of_mem_filter hr
    simpa using this

/-- Closed witness for `deleteEntities_best_effort`: deleting one entity of a
concrete two-entity graph while every vector removal fails still succeeds and
still removes the entity and its relation from the primary graph. -/
theorem deleteEntities_best_effort_witness :
    (∃ vs2, deleteEntities (fun _ => true) true abGraph ["A", "B"] ["A"] =
        Except.ok (deleteEntitiesGraph abGraph ["A"], vs2)) ∧
      (∀ e ∈ (deleteEntitiesGraph abGraph ["A"]).entities, e.name ∉ ["A"]) ∧
      (∀ r ∈ (deleteEntitiesGraph abGraph ["A"]).relations,
        r.fromName ∉ ["A"] ∧ r.toName ∉ ["A"]) :=
  deleteEntities_best_effort (fun _ => true) true abGraph ["A", "B"] ["A"] (by decide)

/-- C2 (refuted): with a storage provider whose `semanticSearch` rejects
(embedding generation succeeding and keyword search perfectly healthy), the
missing `await` on `return storageProvider.semanticSearch(...)` lets the
provider error propagate to the caller of `search` instead of being degraded
to the keyword search — even though `searchNodes` would have succeeded. -/
theorem search_propagates_provider_error :
    search searchBugConfig searchBugEnv { semanticSearch := true, hybridSearch := false } =
        Except.error "ProviderError: semantic search failed" ∧
      searchNodes searchBugConfig searchBugEnv = Except.ok emptyGraph :=
  ⟨rfl, rfl⟩

/-- C3: `analyze` computes complexity 0 for at most one term, 1 once the term
count reaches `complexityThreshold`, and the linear interpolation
`(termCount - 1) / (complexityThreshold - 1)` in between; the recommended
threshold is `maxThresholdSingleTerm` when adaptive thresholds are disabled
and otherwise interpolates down towards `minThresholdMultiTerm` with
complexity. -/
theorem analyze_complexity_and_threshold
    (opts : QueryPreprocessorOptions) (query : String) :
    ((extractTerms (normalizeQuery query)).length ≤ 1 →
      (analyze opts query).complexity = 0) ∧
    (1 < (extractTerms (normalizeQuery query)).length →
      opts.complexityThreshold ≤ ((extractTerms (normalizeQuery query)).length : ℚ) →
      (analyze opts query).complexity = 1) ∧
    (1 < (extractTerms (normalizeQuery query)).length →
      ((extractTerms (normalizeQuery query)).length : ℚ) < opts.complexityThreshold →
      (analyze opts query).complexity =
        (((extractTerms (normalizeQuery query)).length : ℚ) - 1) /
          (opts.complexityThreshold - 1)) ∧
    (opts.adaptiveThresholds = false →
      (analyze opts query).recommendedThreshold = opts.maxThresholdSingleTerm) ∧
    (opts.adaptiveThresholds = true →
      (analyze opts query).recommendedThreshold = opts.maxThresholdSingleTerm -
        (analyze opts query).complexity *
          (opts.maxThresholdSingleTerm - opts.minThresholdMultiTerm)) := by
  refine ⟨?_, ?_, ?_, ?_, ?_⟩
  · intro h
    simp [analyze, analyzeComplexity, h]
  · intro h1 h2
    simp only [analyze, analyzeComplexity]
    rw [if_neg (by omega), if_pos h2]
  · intro h1 h2
    simp only [analyze, analyzeComplexity]
    rw [if_neg (by omega), if_neg (by exact not_le.mpr h2)]
  · intro h
    simp [analyze, calculateAdaptiveThreshold, h]
  · intro h
    simp [analyze, calculateAdaptiveThreshold, h]

/-- Closed witness for `analyze_complexity_and_threshold`: the default
options on a three-term query give complexity 1 and the multi-term threshold
0.4, and on a one-term query give complexity 0. -/
theorem analyze_complexity_and_threshold_witness :
    (analyze {} "programmer developer coding").complexity = 1 ∧
      (analyze {} "programmer developer coding").recommendedThreshold = 2/5 ∧
      (analyze {} "rabbit").complexity = 0 := by
  have h := analyze_complexity_and_threshold {} "programmer developer coding"
  have h2 := analyze_complexity_and_threshold {} "rabbit"
  have hc : (analyze {} "programmer developer coding").complexity = 1 :=
    h.2.1 (by decide) (by norm_num [show (extractTerms
      (normalizeQuery "programmer developer coding")).length = 3 from by decide])
  refine ⟨hc, ?_, h2.1 (by decide)⟩
  rw [h.2.2.2.2 rfl, hc]
  norm_num

/-- C4: with decomposition enabled and at least three terms, `analyze`
returns as sub-queries the full normalized query, all adjacent bigrams and
every term of at least 5 characters, in insertion order and deduplicated
with first occurrences kept (JS `Set` semantics); the result therefore
contains no duplicates and lists exactly those strings. -/
theorem analyze_subqueries_decomposition
    (opts : QueryPreprocessorOptions) (query : String)
    (hdec : opts.enableDecomposition = true)
    (hterms : 3 ≤ (extractTerms (normalizeQuery query)).length) :
    (analyze opts query).subQueries =
        setDedup ([normalizeQuery query] ++ bigrams (extractTerms (normalizeQuery query)) ++
          (extractTerms (normalizeQuery query)).filter (fun t => 5 ≤ t.length)) ∧
      (analyze opts query).subQueries.Nodup ∧
      ∀ s, s ∈ (analyze opts query).subQueries ↔
        (s = normalizeQuery query ∨ s ∈ bigrams (extractTerms (normalizeQuery query)) ∨
          s ∈ (extractTerms (normalizeQuery query)).filter (fun t => 5 ≤ t.length)) := by
  have heq : (analyze opts query).subQueries =
      setDedup ([normalizeQuery query] ++ bigrams (extractTerms (normalizeQuery query)) ++
        (extractTerms (normalizeQuery query)).filter (fun t => 5 ≤ t.length)) := by
    simp only [analyze, hdec, if_pos, decomposeQuery]
    rw [if_pos hterms, List.singleton_append]
  refine ⟨heq, ?_, ?_⟩
  · rw [heq]; exact nodup_setDedup _
  · intro s
    rw [heq, mem_setDedup]
    simp [List.mem_append]

/-- Closed witness for `analyze_subqueries_decomposition`: the default
options on "programmer developer coding" produce exactly the full query, its
two bigrams and its three long terms. -/
theorem analyze_subqueries_decomposition_witness :
    (analyze {} "programmer developer coding").subQueries =
      ["programmer developer coding", "programmer developer", "developer coding",
        "programmer", "developer", "coding"] := by
  have h := analyze_subqueries_decomposition {} "programmer developer coding" rfl (by decide)
  rw [h.1]
  decide

theorem sumSq_nonneg (v : List ℝ) : 0 ≤ sumSq v := by
  induction v with
  | nil => simp [sumSq]
  | cons x xs ih =>
    simp only [sumSq, List.map_cons, List.sum_cons]
    exact add_nonneg (mul_self_nonneg x) ih

theorem sumSq_map_div (v : List ℝ) (m : ℝ) :
    sumSq (v.map (fun x => x / m)) = sumSq v / (m * m) := by
  induction v with
  | nil => simp [sumSq]
  | cons x xs ih =>
    simp only [sumSq, List.map_cons, List.sum_cons] at *
    rw [ih, div_mul_div_comm, add_div]

theorem sumSq_normalizeVector (v : List ℝ) : sumSq (normalizeVector v) = 1 := by
  unfold normalizeVector
  by_cases h : 0 < magnitude v
  · rw [if_pos h, sumSq_map_div]
    have hm : magnitude v * magnitude v = sumSq v :=
      Real.mul_self_sqrt (sumSq_nonneg v)
    have hpos : 0 < sumSq v := by
      have := Real.sqrt_pos.mp h
      exact this
    rw [hm]
    exact div_self (ne_of_gt hpos)
  · rw [if_neg h]
    have hzero : sumSq v = 0 := by
      have hle : magnitude v ≤ 0 := not_lt.mp h
      have hge : 0 ≤ magnitude v := Real.sqrt_nonneg _
      have hm0 : magnitude v = 0 := le_antisymm hle hge
      have hle0 : sumSq v ≤ 0 := Real.sqrt_eq_zero'.mp hm0
      exact le_antisymm hle0 (sumSq_nonneg v)
    cases v with
    | nil => simp [sumSq]
    | cons x rest =>
      simp only [sumSq, List.map_cons, List.sum_cons] at hzero ⊢
      have hx : 0 ≤ x * x := mul_self_nonneg x
      have hr : 0 ≤ (rest.map (fun x => x * x)).sum := sumSq_nonneg rest
      have : (rest.map (fun x => x * x)).sum = 0 := by linarith
      rw [this]
      norm_num

theorem normalizeVector_zero_magnitude (v : List ℝ) (h : magnitude v = 0) :
    normalizeVector v = 1 :: v.tail := by
  unfold normalizeVector
  rw [if_neg (by rw [h]; exact lt_irrefl 0)]
  cases v with
  | nil => rfl
  | cons x rest => rfl

/-- C5 counterexample: not every embedding-provider implementation returns
unit-norm vectors.  `OllamaEmbeddingService.generateEmbedding` hands the
provider's vector through unchanged, so for the response vector `[2, 0]` the
returned embedding has squared L2 norm 4, not 1. -/
theorem ollama_embedding_not_normalized :
    ollamaProcessResponse (some [2, 0]) = Except.ok [2, 0] ∧
      sumSq [(2 : ℝ), 0] ≠ 1 := by
  constructor
  · rfl
  · simp only [sumSq, List.map_cons, List.map_nil, List.sum_cons, List.sum_nil]
    norm_num

/-- C5 amended: `AzureEmbeddingService.generateEmbedding` normalizes every
embedding it returns to unit L2 norm at the generation boundary, while
`OllamaEmbeddingService.generateEmbedding` returns the provider's vector
unchanged (no normalization). -/
theorem azure_normalizes_ollama_does_not (data : List (List ℝ)) (w v : List ℝ)
    (h : azureProcessResponse data = Except.ok w) :
    sumSq w = 1 ∧ ollamaProcessResponse (some v) = Except.ok v := by
  constructor
  · unfold azureProcessResponse at h
    cases hd : data.head? with
    | none => rw [hd] at h; cases h
    | some embedding =>
      rw [hd] at h
      dsimp only at h
      by_cases he : embedding.isEmpty
      · rw [if_pos he] at h; cases h
      · rw [if_neg he] at h
        have hw : w = normalizeVector embedding := by
          cases h; rfl
        rw [hw]
        exact sumSq_normalizeVector embedding
  · rfl

/-- Closed witness for `azure_normalizes_ollama_does_not`: the Azure
post-processing of the response `[[1]]` returns the (already unit) vector
`[1]`, whose squared norm is 1, and Ollama passes `[3, 4]` through. -/
theorem azure_normalizes_witness :
    sumSq [(1 : ℝ)] = 1 ∧ ollamaProcessResponse (some [3, 4]) = Except.ok [3, 4] := by
  have hproc : azureProcessResponse [[1]] = Except.ok [(1 : ℝ)] := by
    have hmag : magnitude [(1 : ℝ)] = 1 := by
      simp [magnitude, sumSq]
    simp [azureProcessResponse, normalizeVector, hmag]
  exact azure_normalizes_ollama_does_not [[1]] [(1 : ℝ)] [3, 4] hproc

/-- C9: AzureEmbeddingService._normalizeVector always yields a valid unit
vector — its squared L2 norm is exactly 1 (no division by zero, hence no NaN
in the real-number model) — and when the input's magnitude is zero (the
all-zero and the empty vector) the first component is set to 1 while the
remaining components stay as they were. -/
theorem normalizeVector_unit_and_zero_case (v : List ℝ) :
    sumSq (normalizeVector v) = 1 ∧
      (magnitude v = 0 → normalizeVector v = 1 :: v.tail) := by
  exact ⟨sumSq_normalizeVector v, fun h => normalizeVector_zero_magnitude v h⟩

/-- Closed witness for `normalizeVector_unit_and_zero_case`: normalizing the
all-zero two-element vector gives `[1, 0]`, a unit vector. -/
theorem normalizeVector_unit_witness :
    sumSq (normalizeVector [(0 : ℝ), 0]) = 1 ∧ normalizeVector [(0 : ℝ), 0] = [1, 0] := by
  have h := normalizeVector_unit_and_zero_case [(0 : ℝ), 0]
  have hmag : magnitude [(0 : ℝ), 0] = 0 := by
    simp [magnitude, sumSq]
  exact ⟨h.1, h.2 hmag⟩

/-- C8 (refuted on the code): an explicit `EMBEDDING_PROVIDER=openai` with a
valid OpenAI key does **not** take precedence over auto-detection — when the
Azure credentials are also present, the explicit branch merely validates the
key and falls through to auto-detection, which picks Azure first.  The same
environment also shows auto-detection never selecting the local (Ollama)
provider. -/
theorem createFromEnvironment_explicit_not_honored :
    createFromEnvironment dualCredentialEnv = ProviderSelection.azure ∧
      ProviderSelection.azure ≠ ProviderSelection.openai :=
  ⟨by decide, by decide⟩

end MementoMCP
